import Mathlib

/-!
Shallow embedding of the authorization core of the DocuChat repository:
the role hierarchy and capability resolver (PermissionsContext), the
folder visibility policy (the "Users can view accessible folders" RLS
policy and the can_view_folder function), the folder-permission
management policies, the invitation lifecycle (InviteUserDialog and
AcceptInvite pages together with the invitations table defaults), and
folder deletion with its cascades.

Identifiers as in the source (user ids, emails, tokens and folder ids
are opaque in the source; they are modelled as natural numbers).
-/

namespace DocuChat

/-- The app_role enum: ENUM of super_admin, admin, editor, reader. -/
inductive AppRole
  | superAdmin
  | admin
  | editor
  | reader
deriving DecidableEq, Repr, Fintype

/-- roleHierarchy from PermissionsContext: super_admin 4, admin 3, editor 2, reader 1. -/
def roleHierarchy : AppRole → Nat
  | .superAdmin => 4
  | .admin => 3
  | .editor => 2
  | .reader => 1

/-- hasRole helper from PermissionsContext:
if (!role || !minRole) return false; return roleHierarchy[role] >= roleHierarchy[minRole]. -/
def hasRole (role minRole : Option AppRole) : Bool :=
  match role, minRole with
  | some r, some m => decide (roleHierarchy m ≤ roleHierarchy r)
  | _, _ => false

/-- The thirteen capability booleans exposed by PermissionsContext. -/
structure Capabilities where
  canManageUsers : Bool
  canViewUsers : Bool
  canCreateFolders : Bool
  canDeleteFolders : Bool
  canRenameFolders : Bool
  canUploadDocuments : Bool
  canDeleteDocuments : Bool
  canRenameDocuments : Bool
  canUseChat : Bool
  canExportConversations : Bool
  canViewAllConversations : Bool
  canAccessSettings : Bool
  canManageBilling : Bool
deriving DecidableEq, Repr

/-- The capability record computed in PermissionsProvider from the fetched
role alone (role is null when the user_roles lookup finds no row or errors). -/
def permissionsProviderValue (role : Option AppRole) : Capabilities where
  canManageUsers := role == some .superAdmin
  canViewUsers := role == some .superAdmin || role == some .admin
  canCreateFolders := hasRole role (some .editor)
  canDeleteFolders := hasRole role (some .admin)
  canRenameFolders := hasRole role (some .editor)
  canUploadDocuments := hasRole role (some .editor)
  canDeleteDocuments := hasRole role (some .admin)
  canRenameDocuments := hasRole role (some .editor)
  canUseChat := role.isSome
  canExportConversations := hasRole role (some .editor)
  canViewAllConversations := hasRole role (some .admin)
  canAccessSettings := hasRole role (some .admin)
  canManageBilling := role == some .superAdmin

/-- A user as the enforcement layer sees one: account id, an optional role
record (user_roles has UNIQUE (user_id)), and the profiles.is_active flag. -/
structure UserRec where
  id : Nat
  role : Option AppRole
  isActive : Bool
deriving DecidableEq, Repr

/-- The capabilities the client resolver produces for a user. fetchRole in
PermissionsProvider reads only user_roles; profiles.is_active is not consulted. -/
def userCapabilities (u : UserRec) : Capabilities :=
  permissionsProviderValue u.role

/-- The Capabilities record with every capability false. -/
def Capabilities.allFalse : Capabilities where
  canManageUsers := false
  canViewUsers := false
  canCreateFolders := false
  canDeleteFolders := false
  canRenameFolders := false
  canUploadDocuments := false
  canDeleteDocuments := false
  canRenameDocuments := false
  canUseChat := false
  canExportConversations := false
  canViewAllConversations := false
  canAccessSettings := false
  canManageBilling := false

/-- The user_roles table: (user_id, role) rows. -/
abbrev RoleTable := List (Nat × AppRole)

/-- has_role(_user_id, _role) security definer function: EXISTS a user_roles
row with that user_id and exactly that role. -/
def has_role (roles : RoleTable) (uid : Nat) (r : AppRole) : Bool :=
  roles.any (fun e => e.1 == uid && e.2 == r)

/-- folder_access_level enum: ENUM of private, team, custom. -/
inductive FolderAccessLevel
  | «private»
  | team
  | custom
deriving DecidableEq, Repr, Fintype

/-- A folders row: id, user_id (legacy owner), created_by (nullable,
ON DELETE SET NULL), access_level. -/
structure Folder where
  id : Nat
  userId : Nat
  createdBy : Option Nat
  accessLevel : FolderAccessLevel
deriving DecidableEq, Repr

/-- folder_permissions rows as (folder_id, user_id) pairs. -/
abbrev GrantTable := List (Nat × Nat)

/-- The "Users can view accessible folders" SELECT policy on folders (same
predicate in all three migration versions and in can_view_folder):
user_id = auth.uid() OR has_role(auth.uid(), super_admin) OR
access_level = team OR (access_level = private AND created_by = auth.uid())
OR (access_level = custom AND EXISTS folder_permissions row). -/
def canViewFolder (roles : RoleTable) (grants : GrantTable) (uid : Nat) (f : Folder) : Bool :=
  f.userId == uid
  || has_role roles uid .superAdmin
  || f.accessLevel == .team
  || (f.accessLevel == .«private» && f.createdBy == some uid)
  || (f.accessLevel == .custom && grants.any (fun g => g.1 == f.id && g.2 == uid))

/-- The union of the three permissive FOR ALL policies on folder_permissions:
"Super admins can manage folder permissions", "Admins can manage folder
permissions" (exact-role has_role checks) and "Folder creators can manage
permissions" (EXISTS a folders row with that id created by the requester). -/
def canManageGrantPolicy (roles : RoleTable) (folders : List Folder) (uid fid : Nat) : Bool :=
  has_role roles uid .superAdmin
  || has_role roles uid .admin
  || folders.any (fun f => f.id == fid && f.createdBy == some uid)

/-- canManageAccess in Documents.tsx: hasRole(admin), gating the folder
access dialog in the UI. -/
def canManageAccess (role : Option AppRole) : Bool :=
  hasRole role (some .admin)

/-- An invitations row: email, role (DEFAULT reader), unique token,
accepted_at (nullable timestamp) and expires_at (DEFAULT now() + 7 days).
Emails, tokens and timestamps are opaque in the logic and modelled as Nat;
time is in seconds. -/
structure Invitation where
  id : Nat
  email : Nat
  role : AppRole
  token : Nat
  acceptedAt : Option Nat
  expiresAt : Nat
deriving DecidableEq, Repr

/-- A profiles row: account id, email and the is_active flag
(ALTER TABLE profiles ADD COLUMN is_active BOOLEAN NOT NULL DEFAULT true). -/
structure Profile where
  id : Nat
  email : Nat
  isActive : Bool
deriving DecidableEq, Repr

/-- The slice of the store the invitation flow touches: profiles (standing in
for auth accounts as well, one per account), user_roles and invitations. -/
structure Store where
  profiles : List Profile
  userRoles : RoleTable
  invitations : List Invitation
deriving DecidableEq, Repr

/-- Seconds in the 7-day expiry window of an invitation. -/
def sevenDays : Nat := 7 * 24 * 60 * 60

/-- Outcome of handleSubmit in InviteUserDialog. -/
inductive InviteResult
  | validationFailed
  | conflictAccount
  | conflictPendingInvite
  | created
deriving DecidableEq, Repr

/-- handleSubmit in InviteUserDialog: zod-validate the role against
enum([admin, editor, reader]); error if a profiles row with that
email exists; error if an invitations row with that email and
accepted_at IS NULL exists (no expiry filter in the query); otherwise
insert the invitation, whose expires_at defaults to now + 7 days. -/
def inviteHandleSubmit (email : Nat) (role : AppRole) (now token newId : Nat)
    (st : Store) : Store × InviteResult :=
  if role == .superAdmin then
    (st, .validationFailed)
  else if st.profiles.any (fun p => p.email == email) then
    (st, .conflictAccount)
  else if st.invitations.any (fun i => i.email == email && i.acceptedAt == none) then
    (st, .conflictPendingInvite)
  else
    ({ st with invitations :=
        st.invitations ++ [⟨newId, email, role, token, none, now + sevenDays⟩] },
     .created)

/-- Failure kinds of fetchInvitation in AcceptInvite. -/
inductive FetchError
  | notFound
  | alreadyAccepted
  | expired
deriving DecidableEq, Repr

/-- fetchInvitation in AcceptInvite: look the token up (maybeSingle); error
if absent, if accepted_at is set, or if expires_at is in the past
(new Date(expires_at) < new Date()). -/
def fetchInvitation (st : Store) (token now : Nat) : Except FetchError Invitation :=
  match st.invitations.find? (fun i => i.token == token) with
  | none => .error .notFound
  | some inv =>
    if inv.acceptedAt.isSome then .error .alreadyAccepted
    else if inv.expiresAt < now then .error .expired
    else .ok inv

/-- Outcome of handleSubmit in AcceptInvite. -/
inductive AcceptResult
  | validationFailed
  | signUpFailed
  | accepted
deriving DecidableEq, Repr

/-- The signupSchema checks in AcceptInvite: fullName between 2 and 100
characters, password at least 8 characters, matching confirmation. -/
def signupSchemaOk (fullName password confirmPassword : String) : Bool :=
  decide (2 ≤ fullName.length) && decide (fullName.length ≤ 100)
  && decide (8 ≤ password.length) && password == confirmPassword

/-- handleSubmit in AcceptInvite, run on the invitation held in client state
since fetchInvitation: validate the form, signUp (fails only when an account
with the email of the invitation already exists), insert the user_roles row with
the role of the invitation, then stamp accepted_at = now on the invitations row.
No re-validation of accepted_at or expires_at happens at submission time. -/
def acceptHandleSubmit (inv : Invitation) (fullName password confirmPassword : String)
    (now newUserId : Nat) (st : Store) : Store × AcceptResult :=
  if !signupSchemaOk fullName password confirmPassword then
    (st, .validationFailed)
  else if st.profiles.any (fun p => p.email == inv.email) then
    (st, .signUpFailed)
  else
    ({ profiles := st.profiles ++ [⟨newUserId, inv.email, true⟩]
       userRoles := st.userRoles ++ [(newUserId, inv.role)]
       invitations := st.invitations.map (fun i =>
         if i.id == inv.id then { i with acceptedAt := some now } else i) },
     .accepted)

/-- handleDeleteInvite in the settings page: delete the invitations row by id. -/
def deleteInvite (id : Nat) (st : Store) : Store :=
  { st with invitations := st.invitations.filter (fun i => i.id != id) }

/-- The operations of the app that touch the invitations store. `accept`
resolves the token through fetchInvitation (as the AcceptInvite page does on
load) and, when that succeeds, runs acceptHandleSubmit on the resolved row. -/
inductive Op
  | invite (email : Nat) (role : AppRole) (now token newId : Nat)
  | accept (token : Nat) (fullName password confirmPassword : String)
      (nowFetch nowSubmit newUserId : Nat)
  | revoke (id : Nat)

/-- One step of the invitation store. -/
def step (st : Store) (op : Op) : Store :=
  match op with
  | .invite email role now token newId =>
      (inviteHandleSubmit email role now token newId st).1
  | .accept token fullName password confirmPassword nowFetch nowSubmit newUserId =>
      match fetchInvitation st token nowFetch with
      | .ok inv => (acceptHandleSubmit inv fullName password confirmPassword nowSubmit newUserId st).1
      | .error _ => st
  | .revoke id => deleteInvite id st

/-- Run a sequence of operations from a store with no invitations (the
invitations table starts empty; profiles and roles may pre-exist). -/
def runOps (profiles0 : List Profile) (roles0 : RoleTable) (ops : List Op) : Store :=
  ops.foldl step ⟨profiles0, roles0, []⟩

/-- A documents row, reduced to its id and nullable folder reference. -/
structure Document where
  id : Nat
  folderId : Option Nat
deriving DecidableEq, Repr

/-- The slice of the store folder deletion touches. -/
structure DocStore where
  folders : List Folder
  grants : GrantTable
  documents : List Document
deriving DecidableEq, Repr

/-- Modelled from the spec: the documents.folder_id foreign key is declared
in a migration that is not part of the sources here; per the spec ("documents
previously in that folder lose their folder association") and the comment in
Documents.tsx ("Documents in this folder will have folder_id set to null due
to ON DELETE SET NULL"), deleting a folders row clears matching document
references. The folder_permissions.folder_id cascade (ON DELETE CASCADE) is
in the sources. A single DELETE statement fires both referential actions, so
the whole update is one step. -/
def deleteFolderDb (st : DocStore) (fid : Nat) : DocStore where
  folders := st.folders.filter (fun f => f.id != fid)
  grants := st.grants.filter (fun g => g.1 != fid)
  documents := st.documents.map (fun d =>
    if d.folderId == some fid then { d with folderId := none } else d)

/-- handleDeleteFolder in Documents.tsx: return untouched unless the client
holds canDeleteFolders, else issue the single folders DELETE. -/
def handleDeleteFolder (caps : Capabilities) (fid : Nat) (st : DocStore) : DocStore :=
  if caps.canDeleteFolders then deleteFolderDb st fid else st

/-- The SELECT side of the invitations policies: "Anyone can view invitation
by token for accepting" has USING (true); "Super admins can manage
invitations" adds has_role(auth.uid(), super_admin). Permissive policies
are OR-combined. -/
def invitationSelectPolicy (roles : RoleTable) (uid : Nat) (inv : Invitation) : Bool :=
  has_role roles uid .superAdmin || true

/-- The invitation rows a requester can read under the SELECT policies. -/
def readableInvitations (roles : RoleTable) (uid : Nat) (st : Store) : List Invitation :=
  st.invitations.filter (invitationSelectPolicy roles uid)

/-- Invariant of the invitation store relative to the initial role table:
no stored invitation carries super_admin, and every user_roles row is either
original or carries a role other than super_admin. -/
def StoreOk (roles0 : RoleTable) (st : Store) : Prop :=
  (∀ i ∈ st.invitations, i.role ≠ AppRole.superAdmin) ∧
  (∀ e ∈ st.userRoles, e ∈ roles0 ∨ e.2 ≠ AppRole.superAdmin)

/-- A small concrete document store used to instantiate the folder-deletion
theorem: two team folders, a grant on each, one document in each. -/
def sampleDocStore : DocStore where
  folders := [⟨1, 0, some 0, .team⟩, ⟨2, 0, some 0, .team⟩]
  grants := [(1, 5), (2, 6)]
  documents := [⟨10, some 1⟩, ⟨11, some 2⟩, ⟨12, none⟩]

/- ------------------------------------------------------------------ -/
/- Theorems                                                           -/
/- ------------------------------------------------------------------ -/

/-- Membership characterisation of the has_role security definer function. -/
theorem has_role_iff_mem (roles : RoleTable) (uid : Nat) (r : AppRole) :
    has_role roles uid r = true ↔ (uid, r) ∈ roles := by
  simp only [has_role, List.any_eq_true, Bool.and_eq_true, beq_iff_eq]
  constructor
  · rintro ⟨e, he, h1, h2⟩
    cases e
    cases h1
    cases h2
    exact he
  · intro h
    exact ⟨(uid, r), h, rfl, rfl⟩

/-- Propositional form of the folders SELECT policy. -/
theorem canViewFolder_iff (roles : RoleTable) (grants : GrantTable) (uid : Nat) (f : Folder) :
    canViewFolder roles grants uid f = true ↔
      (f.userId = uid ∨ has_role roles uid AppRole.superAdmin = true ∨
       f.accessLevel = FolderAccessLevel.team ∨
       (f.accessLevel = FolderAccessLevel.«private» ∧ f.createdBy = some uid) ∨
       (f.accessLevel = FolderAccessLevel.custom ∧ ∃ g ∈ grants, g.1 = f.id ∧ g.2 = uid)) := by
  simp [canViewFolder, List.any_eq_true, Bool.and_eq_true, beq_iff_eq]
  tauto

/-- Claim C5: for roles R1 below R2 in reader < editor < admin < super_admin,
every capability the resolver grants to R1 is granted to R2 (stated for the
eleven threshold capabilities), and the two exact-match capabilities
(canManageUsers, canManageBilling) hold exactly for super_admin. -/
theorem capability_monotone_and_exact (r1 r2 : AppRole)
    (h : roleHierarchy r1 < roleHierarchy r2) :
    (((permissionsProviderValue (some r1)).canViewUsers = true →
        (permissionsProviderValue (some r2)).canViewUsers = true) ∧
     ((permissionsProviderValue (some r1)).canCreateFolders = true →
        (permissionsProviderValue (some r2)).canCreateFolders = true) ∧
     ((permissionsProviderValue (some r1)).canDeleteFolders = true →
        (permissionsProviderValue (some r2)).canDeleteFolders = true) ∧
     ((permissionsProviderValue (some r1)).canRenameFolders = true →
        (permissionsProviderValue (some r2)).canRenameFolders = true) ∧
     ((permissionsProviderValue (some r1)).canUploadDocuments = true →
        (permissionsProviderValue (some r2)).canUploadDocuments = true) ∧
     ((permissionsProviderValue (some r1)).canDeleteDocuments = true →
        (permissionsProviderValue (some r2)).canDeleteDocuments = true) ∧
     ((permissionsProviderValue (some r1)).canRenameDocuments = true →
        (permissionsProviderValue (some r2)).canRenameDocuments = true) ∧
     ((permissionsProviderValue (some r1)).canUseChat = true →
        (permissionsProviderValue (some r2)).canUseChat = true) ∧
     ((permissionsProviderValue (some r1)).canExportConversations = true →
        (permissionsProviderValue (some r2)).canExportConversations = true) ∧
     ((permissionsProviderValue (some r1)).canViewAllConversations = true →
        (permissionsProviderValue (some r2)).canViewAllConversations = true) ∧
     ((permissionsProviderValue (some r1)).canAccessSettings = true →
        (permissionsProviderValue (some r2)).canAccessSettings = true)) ∧
    (∀ r : AppRole,
      ((permissionsProviderValue (some r)).canManageUsers = true ↔ r = AppRole.superAdmin) ∧
      ((permissionsProviderValue (some r)).canManageBilling = true ↔ r = AppRole.superAdmin)) := by
  revert h
  revert r1 r2
  decide

/-- Witness for C5 at the concrete pair reader < admin. -/
theorem capability_monotone_and_exact_witness :
    roleHierarchy AppRole.reader < roleHierarchy AppRole.admin ∧
    ((permissionsProviderValue (some AppRole.admin)).canManageUsers = true ↔
      AppRole.admin = AppRole.superAdmin) :=
  ⟨by decide,
   ((capability_monotone_and_exact AppRole.reader AppRole.admin (by decide)).2 AppRole.admin).1⟩

/-- Claim C10: the invitations SELECT policies let every requester, with or
without any role, read every invitation row (token, email and role included):
the readable set equals the whole table and the policy predicate is true on
every row. -/
theorem invitations_readable_by_everyone (roles : RoleTable) (uid : Nat) (st : Store) :
    readableInvitations roles uid st = st.invitations ∧
    ∀ i : Invitation, invitationSelectPolicy roles uid i = true := by
  constructor
  · simp [readableInvitations, invitationSelectPolicy, List.filter_eq_self]
  · intro i
    simp [invitationSelectPolicy]

/-- Claim C4, amended: the permissive folder_permissions policies admit a
grant-management operation exactly for super_admin, admin, or the creator of
the target folder; the client dialog gate canManageAccess additionally only
admits admin and super_admin. -/
theorem grant_management_characterisation (roles : RoleTable) (folders : List Folder)
    (uid fid : Nat) :
    (canManageGrantPolicy roles folders uid fid = true ↔
      (has_role roles uid AppRole.superAdmin = true ∨
       has_role roles uid AppRole.admin = true ∨
       ∃ f ∈ folders, f.id = fid ∧ f.createdBy = some uid)) ∧
    (∀ r : AppRole, canManageAccess (some r) = (r == AppRole.admin || r == AppRole.superAdmin)) ∧
    canManageAccess none = false := by
  refine ⟨?_, by decide, rfl⟩
  simp [canManageGrantPolicy, List.any_eq_true, Bool.and_eq_true, beq_iff_eq]
  tauto

/-- Counterexample to C4 as stated: an editor (a role below admin) who
created folder 1 is admitted by the folder_permissions policies, so
grant management is not denied to every user below admin. -/
theorem grant_management_below_admin_counterexample :
    canManageGrantPolicy [(3, AppRole.editor)] [⟨1, 3, some 3, .team⟩] 3 1 = true ∧
    has_role [(3, AppRole.editor)] 3 AppRole.admin = false ∧
    has_role [(3, AppRole.editor)] 3 AppRole.superAdmin = false := by decide

/-- Claim C1, amended: a user with no role record gets every resolver
capability false; the resolver reads only the role, so is_active has no
effect on it; and for a requester holding no role row, the folders policy
still admits exactly the folders they own, every team folder, private
folders they created, and custom folders they hold a grant for. -/
theorem no_role_characterisation (u : UserRec) (hu : u.role = none)
    (roles : RoleTable) (grants : GrantTable) (uid : Nat) (f : Folder)
    (hnr : ∀ r : AppRole, (uid, r) ∉ roles) :
    userCapabilities u = Capabilities.allFalse ∧
    (∀ v : UserRec, ∀ b : Bool, userCapabilities { v with isActive := b } = userCapabilities v) ∧
    (canViewFolder roles grants uid f = true ↔
      (f.userId = uid ∨ f.accessLevel = FolderAccessLevel.team ∨
       (f.accessLevel = FolderAccessLevel.«private» ∧ f.createdBy = some uid) ∨
       (f.accessLevel = FolderAccessLevel.custom ∧ ∃ g ∈ grants, g.1 = f.id ∧ g.2 = uid))) := by
  have hsa : has_role roles uid AppRole.superAdmin = false := by
    cases hx : has_role roles uid AppRole.superAdmin with
    | false => rfl
    | true => exact absurd ((has_role_iff_mem roles uid _).mp hx) (hnr _)
  refine ⟨?_, fun v b => rfl, ?_⟩
  · unfold userCapabilities
    rw [hu]
    rfl
  · rw [canViewFolder_iff]
    simp [hsa]

/-- Counterexample to C1 as stated: an inactive admin keeps
canDeleteFolders from the resolver, and a requester with no role row at all
can still view a team folder under the folders policy. -/
theorem no_role_characterisation_counterexample :
    (userCapabilities ⟨1, some AppRole.admin, false⟩).canDeleteFolders = true ∧
    canViewFolder [] [] 7 ⟨2, 0, none, .team⟩ = true := by decide

/-- Witness for C1 amended at a concrete roleless user and a team folder. -/
theorem no_role_characterisation_witness :
    userCapabilities ⟨0, none, true⟩ = Capabilities.allFalse ∧
    canViewFolder [] [] 7 ⟨2, 0, none, .team⟩ = true :=
  ⟨(no_role_characterisation ⟨0, none, true⟩ rfl [] [] 7 ⟨2, 0, none, .team⟩ (by simp)).1,
   (no_role_characterisation ⟨0, none, true⟩ rfl [] [] 7 ⟨2, 0, none, .team⟩ (by simp)).2.2.mpr
     (Or.inr (Or.inl rfl))⟩

/-- Claim C2, amended: a private folder is viewable exactly by its owner
(the legacy user_id field), its creator, and super_admin; an admin who
neither owns nor created it is denied. -/
theorem private_folder_view (roles : RoleTable) (grants : GrantTable) (uid : Nat) (f : Folder)
    (h : f.accessLevel = FolderAccessLevel.«private») :
    canViewFolder roles grants uid f = true ↔
      (f.userId = uid ∨ f.createdBy = some uid ∨
       has_role roles uid AppRole.superAdmin = true) := by
  rw [canViewFolder_iff]
  simp [h]
  tauto

/-- Counterexample to C2 as stated: user 5 owns (user_id) private folder 0
created by user 3; 5 is neither the creator nor super_admin, yet the policy
admits 5. -/
theorem private_folder_view_counterexample :
    ¬ (canViewFolder [] [] 5 ⟨0, 5, some 3, .«private»⟩ = true ↔
       ((⟨0, 5, some 3, .«private»⟩ : Folder).createdBy = some 5 ∨
        has_role [] 5 AppRole.superAdmin = true)) := by decide

/-- Witness for C2 amended: the creator-owner of a private folder can view it. -/
theorem private_folder_view_witness :
    canViewFolder [] [] 5 ⟨0, 5, some 5, .«private»⟩ = true :=
  (private_folder_view [] [] 5 ⟨0, 5, some 5, .«private»⟩ rfl).mpr (Or.inl rfl)

/-- Claim C3, amended: a custom folder is viewable exactly by its owner
(the legacy user_id field), super_admins, and holders of a FolderGrant; the
creator, when not also owner or grantee, is not admitted. -/
theorem custom_folder_view (roles : RoleTable) (grants : GrantTable) (uid : Nat) (f : Folder)
    (h : f.accessLevel = FolderAccessLevel.custom) :
    canViewFolder roles grants uid f = true ↔
      (f.userId = uid ∨ has_role roles uid AppRole.superAdmin = true ∨
       ∃ g ∈ grants, g.1 = f.id ∧ g.2 = uid) := by
  rw [canViewFolder_iff]
  simp [h]

/-- Counterexample to C3 as stated: for custom folder 0 owned by 5 and
created by 3, with no grants and no super_admin, owner 5 (outside the set
the claim describes) can view it while creator 3 (inside that set) cannot. -/
theorem custom_folder_view_counterexample :
    canViewFolder [] [] 5 ⟨0, 5, some 3, .custom⟩ = true ∧
    canViewFolder [] [] 3 ⟨0, 5, some 3, .custom⟩ = false := by decide

/-- Witness for C3 amended: a grant holder can view the custom folder. -/
theorem custom_folder_view_witness :
    canViewFolder [] [(0, 9)] 9 ⟨0, 5, some 3, .custom⟩ = true :=
  (custom_folder_view [] [(0, 9)] 9 ⟨0, 5, some 3, .custom⟩ rfl).mpr
    (Or.inr (Or.inr ⟨(0, 9), by simp, rfl, rfl⟩))

/-- Claim C6: the acceptance submit handler performs no re-validation. At a
concrete input where the invitation (expires_at 100) resolved fine at display
time 50 but has expired by submission time 200, fetchInvitation at 200
reports Expired, yet acceptHandleSubmit still creates the account, assigns
the role of the invitation and stamps accepted_at 200. -/
theorem accept_skips_revalidation :
    fetchInvitation ⟨[], [], [⟨0, 5, AppRole.editor, 11, none, 100⟩]⟩ 11 50 =
      Except.ok ⟨0, 5, AppRole.editor, 11, none, 100⟩ ∧
    fetchInvitation ⟨[], [], [⟨0, 5, AppRole.editor, 11, none, 100⟩]⟩ 11 200 =
      Except.error FetchError.expired ∧
    acceptHandleSubmit ⟨0, 5, AppRole.editor, 11, none, 100⟩ "Jean" "password123" "password123"
        200 9 ⟨[], [], [⟨0, 5, AppRole.editor, 11, none, 100⟩]⟩ =
      (⟨[⟨9, 5, true⟩], [(9, AppRole.editor)], [⟨0, 5, AppRole.editor, 11, some 200, 100⟩]⟩,
       AcceptResult.accepted) :=
  ⟨rfl, rfl, by decide⟩

/-- Propositional form of the pending-invitation duplicate check used by
InviteUserDialog (note: no expiry condition). -/
theorem pendingInviteCheck_iff (st : Store) (email : Nat) :
    (st.invitations.any (fun i => i.email == email && i.acceptedAt == none)) = true ↔
      ∃ i ∈ st.invitations, i.email = email ∧ i.acceptedAt = none := by
  simp [List.any_eq_true, Bool.and_eq_true, beq_iff_eq]

/-- Claim C7, amended: invitation creation conflicts when any profile owns
the email, and otherwise conflicts exactly when some unaccepted invitation
for the email exists, whether expired or not: expired unaccepted invitations
do count toward the duplicate check. -/
theorem invite_conflict_checks (email : Nat) (role : AppRole) (now token newId : Nat)
    (st : Store) (hrole : role ≠ AppRole.superAdmin) :
    ((∃ p ∈ st.profiles, p.email = email) →
      inviteHandleSubmit email role now token newId st = (st, InviteResult.conflictAccount)) ∧
    ((∀ p ∈ st.profiles, p.email ≠ email) →
      ((inviteHandleSubmit email role now token newId st).2 = InviteResult.conflictPendingInvite ↔
        ∃ i ∈ st.invitations, i.email = email ∧ i.acceptedAt = none)) := by
  have hb : (role == AppRole.superAdmin) = false := by
    simpa using hrole
  constructor
  · rintro ⟨p, hp, he⟩
    have hany : st.profiles.any (fun q => q.email == email) = true := by
      rw [List.any_eq_true]
      exact ⟨p, hp, by simpa using he⟩
    simp [inviteHandleSubmit, hb, hany]
  · intro hno
    have hany : st.profiles.any (fun q => q.email == email) = false := by
      cases hpa : st.profiles.any (fun q => q.email == email) with
      | false => rfl
      | true =>
          rw [List.any_eq_true] at hpa
          obtain ⟨p, hp, he⟩ := hpa
          exact absurd (by simpa using he) (hno p hp)
    cases hia : st.invitations.any (fun i => i.email == email && i.acceptedAt == none) with
    | true =>
        simp [inviteHandleSubmit, hb, hany, hia]
        exact (pendingInviteCheck_iff st email).mp hia
    | false =>
        simp [inviteHandleSubmit, hb, hany, hia]
        intro i hi h1 h2
        have : st.invitations.any (fun i => i.email == email && i.acceptedAt == none) = true :=
          (pendingInviteCheck_iff st email).mpr ⟨i, hi, h1, h2⟩
        rw [hia] at this
        cases this

/-- Counterexample to C7 as stated: with only an expired, unaccepted
invitation for email 5 on file (expires_at 10, submission at now 1000), the
duplicate check still rejects the new invitation with a pending conflict. -/
theorem invite_expired_still_blocks_counterexample :
    (inviteHandleSubmit 5 AppRole.reader 1000 77 9
        ⟨[], [], [⟨0, 5, AppRole.reader, 11, none, 10⟩]⟩).2 =
      InviteResult.conflictPendingInvite ∧
    (∀ i ∈ (⟨[], [], [⟨0, 5, AppRole.reader, 11, none, 10⟩]⟩ : Store).invitations,
      i.expiresAt < 1000 ∧ i.acceptedAt = none) := by decide

/-- Witness for C7 amended: an existing profile for the email conflicts. -/
theorem invite_conflict_checks_witness :
    inviteHandleSubmit 5 AppRole.reader 0 1 2 ⟨[⟨7, 5, true⟩], [], []⟩ =
      (⟨[⟨7, 5, true⟩], [], []⟩, InviteResult.conflictAccount) :=
  (invite_conflict_checks 5 AppRole.reader 0 1 2 ⟨[⟨7, 5, true⟩], [], []⟩ (by decide)).1
    ⟨⟨7, 5, true⟩, by simp, rfl⟩

/-- Claim C9: deleting a folder (one DELETE with its referential actions)
leaves no grant for that folder, removes the folder, and leaves no document
referencing a folder that no longer exists, given that document references
were valid beforehand. -/
theorem folder_deletion_cascades (caps : Capabilities) (st : DocStore) (fid : Nat)
    (hcap : caps.canDeleteFolders = true)
    (hfk : ∀ d ∈ st.documents, d.folderId = none ∨
      ∃ f ∈ st.folders, some f.id = d.folderId) :
    (∀ g ∈ (handleDeleteFolder caps fid st).grants, g.1 ≠ fid) ∧
    (∀ f ∈ (handleDeleteFolder caps fid st).folders, f.id ≠ fid) ∧
    (∀ d ∈ (handleDeleteFolder caps fid st).documents, d.folderId = none ∨
      ∃ f ∈ (handleDeleteFolder caps fid st).folders, some f.id = d.folderId) := by
  have hdel : handleDeleteFolder caps fid st = deleteFolderDb st fid := by
    simp [handleDeleteFolder, hcap]
  rw [hdel]
  simp only [deleteFolderDb]
  refine ⟨?_, ?_, ?_⟩
  · intro g hg
    have := List.of_mem_filter hg
    simpa using this
  · intro f hf
    have := List.of_mem_filter hf
    simpa using this
  · intro d hd
    obtain ⟨d0, hd0, hmap⟩ := List.mem_map.mp hd
    by_cases hcase : (d0.folderId == some fid) = true
    · left
      rw [← hmap]
      simp [hcase]
    · have hdeq : d = d0 := by
        rw [← hmap]
        simp [hcase]
      subst hdeq
      rcases hfk d hd0 with hnone | ⟨f, hfmem, hfid⟩
      · left
        exact hnone
      · right
        have hnot : d.folderId ≠ some fid := by
          simpa using hcase
        have hne : f.id ≠ fid := by
          intro hcontra
          exact hnot (by rw [← hfid, hcontra])
        exact ⟨f, List.mem_filter.mpr ⟨hfmem, by simpa using hne⟩, hfid⟩

/-- Witness for C9 at a concrete store: an admin deletes folder 1; no grant
for folder 1 survives. -/
theorem folder_deletion_cascades_witness :
    (permissionsProviderValue (some AppRole.admin)).canDeleteFolders = true ∧
    ∀ g ∈ (handleDeleteFolder (permissionsProviderValue (some AppRole.admin)) 1
        sampleDocStore).grants, g.1 ≠ 1 :=
  ⟨by decide,
   (folder_deletion_cascades (permissionsProviderValue (some AppRole.admin)) sampleDocStore 1
     (by decide) (by decide)).1⟩

/-- An invitation resolved successfully by fetchInvitation is a stored row. -/
theorem fetchInvitation_ok_mem (st : Store) (token now : Nat) (inv : Invitation)
    (h : fetchInvitation st token now = Except.ok inv) : inv ∈ st.invitations := by
  unfold fetchInvitation at h
  cases hf : st.invitations.find? (fun i => i.token == token) with
  | none =>
      rw [hf] at h
      cases h
  | some j =>
      rw [hf] at h
      have hj : j ∈ st.invitations := List.mem_of_find?_eq_some hf
      by_cases h1 : j.acceptedAt.isSome
      · simp [h1] at h
      · by_cases h2 : j.expiresAt < now
        · simp [h1, h2] at h
        · simp [h1, h2] at h
          exact h ▸ hj

/-- Every operation of the app preserves the invitation-store invariant. -/
theorem step_storeOk (roles0 : RoleTable) (st : Store) (op : Op) (h : StoreOk roles0 st) :
    StoreOk roles0 (step st op) := by
  obtain ⟨hinv, hur⟩ := h
  cases op with
  | invite email role now token newId =>
      by_cases h1 : (role == AppRole.superAdmin) = true
      · have heq : step st (Op.invite email role now token newId) = st := by
          simp [step, inviteHandleSubmit, h1]
        rw [heq]
        exact ⟨hinv, hur⟩
      · have h1f : (role == AppRole.superAdmin) = false := by
          simpa using h1
        by_cases h2 : st.profiles.any (fun p => p.email == email) = true
        · have heq : step st (Op.invite email role now token newId) = st := by
            simp [step, inviteHandleSubmit, h1f, h2]
          rw [heq]
          exact ⟨hinv, hur⟩
        · have h2f : st.profiles.any (fun p => p.email == email) = false := by
            simpa using h2
          by_cases h3 :
              st.invitations.any (fun i => i.email == email && i.acceptedAt == none) = true
          · have heq : step st (Op.invite email role now token newId) = st := by
              simp [step, inviteHandleSubmit, h1f, h2f, h3]
            rw [heq]
            exact ⟨hinv, hur⟩
          · have h3f :
                st.invitations.any (fun i => i.email == email && i.acceptedAt == none) = false := by
              simpa using h3
            have heq : step st (Op.invite email role now token newId) =
                { st with invitations :=
                    st.invitations ++ [⟨newId, email, role, token, none, now + sevenDays⟩] } := by
              simp [step, inviteHandleSubmit, h1f, h2f, h3f]
            rw [heq]
            refine ⟨?_, hur⟩
            intro i hi
            rcases List.mem_append.mp hi with hmem | hnew
            · exact hinv i hmem
            · have hieq : i = ⟨newId, email, role, token, none, now + sevenDays⟩ := by
                simpa using hnew
              rw [hieq]
              intro hcontra
              have hre : role = AppRole.superAdmin := hcontra
              rw [hre] at h1f
              simp at h1f
  | accept token fullName password confirmPassword nowFetch nowSubmit newUserId =>
      simp only [step]
      cases hf : fetchInvitation st token nowFetch with
      | error e => exact ⟨hinv, hur⟩
      | ok inv =>
          show StoreOk roles0
            (acceptHandleSubmit inv fullName password confirmPassword nowSubmit newUserId st).1
          have hmem : inv ∈ st.invitations := fetchInvitation_ok_mem st token nowFetch inv hf
          by_cases h1 : signupSchemaOk fullName password confirmPassword = true
          · by_cases h2 : st.profiles.any (fun p => p.email == inv.email) = true
            · have heq :
                  (acceptHandleSubmit inv fullName password confirmPassword nowSubmit
                    newUserId st).1 = st := by
                simp [acceptHandleSubmit, h1, h2]
              rw [heq]
              exact ⟨hinv, hur⟩
            · have h2f : st.profiles.any (fun p => p.email == inv.email) = false := by
                simpa using h2
              have heq :
                  (acceptHandleSubmit inv fullName password confirmPassword nowSubmit
                    newUserId st).1 =
                  ⟨st.profiles ++ [⟨newUserId, inv.email, true⟩],
                   st.userRoles ++ [(newUserId, inv.role)],
                   st.invitations.map (fun i =>
                     if i.id == inv.id then { i with acceptedAt := some nowSubmit } else i)⟩ := by
                simp [acceptHandleSubmit, h1, h2f]
              rw [heq]
              refine ⟨?_, ?_⟩
              · intro i hi
                obtain ⟨j, hj, hmap⟩ := List.mem_map.mp hi
                have hrole : i.role = j.role := by
                  by_cases hjj : (j.id == inv.id) = true
                  · rw [← hmap]
                    simp [hjj]
                  · rw [← hmap]
                    simp [hjj]
                rw [hrole]
                exact hinv j hj
              · intro e he
                rcases List.mem_append.mp he with hmemur | hnew
                · exact hur e hmemur
                · have heeq : e = (newUserId, inv.role) := by
                    simpa using hnew
                  right
                  rw [heeq]
                  exact hinv inv hmem
          · have h1f : signupSchemaOk fullName password confirmPassword = false := by
              simpa using h1
            have heq :
                (acceptHandleSubmit inv fullName password confirmPassword nowSubmit
                  newUserId st).1 = st := by
              simp [acceptHandleSubmit, h1f]
            rw [heq]
            exact ⟨hinv, hur⟩
  | revoke id =>
      refine ⟨?_, hur⟩
      intro i hi
      exact hinv i (List.mem_of_mem_filter hi)

/-- Folding any operation sequence preserves the store invariant. -/
theorem foldl_storeOk (roles0 : RoleTable) (ops : List Op) (st : Store)
    (h : StoreOk roles0 st) : StoreOk roles0 (ops.foldl step st) := by
  induction ops generalizing st with
  | nil => exact h
  | cons op rest ih => exact ih (step st op) (step_storeOk roles0 st op h)

/-- Claim C8: in every state reachable by the app operations from an empty
invitations table, no stored invitation carries super_admin, and every role
row not present initially (hence provisioned by invitation acceptance)
carries a role other than super_admin. -/
theorem invitation_roles_invariant (profiles0 : List Profile) (roles0 : RoleTable)
    (ops : List Op) :
    (∀ i ∈ (runOps profiles0 roles0 ops).invitations, i.role ≠ AppRole.superAdmin) ∧
    (∀ e ∈ (runOps profiles0 roles0 ops).userRoles,
      e ∈ roles0 ∨ e.2 ≠ AppRole.superAdmin) :=
  foldl_storeOk roles0 ops ⟨profiles0, roles0, []⟩
    ⟨fun i hi => absurd hi (List.not_mem_nil i), fun e he => Or.inl he⟩

/-- Witness for C8 at a single invite operation creating an editor invitation. -/
theorem invitation_roles_invariant_witness :
    (⟨2, 5, AppRole.editor, 1, none, 604800⟩ : Invitation) ∈
      (runOps [] [] [Op.invite 5 AppRole.editor 0 1 2]).invitations ∧
    (⟨2, 5, AppRole.editor, 1, none, 604800⟩ : Invitation).role ≠ AppRole.superAdmin :=
  ⟨by decide,
   (invitation_roles_invariant [] [] [Op.invite 5 AppRole.editor 0 1 2]).1 _ (by decide)⟩

end DocuChat
